import Mathlib

/-!
Shallow embedding of the Financial-Document-Processing segmentation core
(`src/segmentation` and `src/config`), together with theorems checking the
natural-language specification against it.  Python floats are modelled as
rationals, Python `None`-able fields as `Option`, Python dictionaries as
structures with optional fields.
-/

namespace FDP

/-! ## String utilities

Python `kw in text` is contiguous-substring containment; we model strings as
their character lists. -/

/-- Does the first character list start with the second? -/
def leadsWith : List Char → List Char → Bool
  | _, [] => true
  | [], _ :: _ => false
  | h :: hs, p :: ps => (h == p) && leadsWith hs ps

/-- Does `pat` occur contiguously inside the first list? -/
def hasSub : List Char → List Char → Bool
  | [], pat => leadsWith [] pat
  | h :: t, pat => leadsWith (h :: t) pat || hasSub t pat

/-- Python `sub in hay` on strings. -/
def strContainsB (hay sub : String) : Bool :=
  hasSub hay.toList sub.toList

/-- Python `str.lower()`: per-character `Char.toLower`, the same function as
`String.toLower`, written over the character list so that it evaluates by
kernel reduction. -/
def pyLower (s : String) : String := String.mk (s.data.map Char.toLower)

/-! ## Sub-type catalog (`src/config/document_types_enhanced.py`)

`SubtypeId` lists the members of `TurnoverSubType` followed by the members of
`WorkOrderSubType`, in their Python declaration order. -/

inductive SubtypeId where
  | plStatement
  | tCaCertificate
  | balanceSheet
  | auditorReport
  | incomeTax
  | tOther
  | purchaseOrder
  | completionCertificate
  | workContract
  | statementOfWork
  | woCaCertificate
  | woOther
deriving DecidableEq, Repr

open SubtypeId

/-- The `.value` string of each enum member. -/
def subtypeValue : SubtypeId → String
  | plStatement => "P&L Statement"
  | tCaCertificate => "CA Certificate"
  | balanceSheet => "Balance Sheet"
  | auditorReport => "Auditor's Report"
  | incomeTax => "Income Tax Related"
  | tOther => "Other"
  | purchaseOrder => "Purchase Order"
  | completionCertificate => "Completion Certificate"
  | workContract => "Work Contract"
  | statementOfWork => "Statement of Work"
  | woCaCertificate => "CA Certificate"
  | woOther => "Other"

/-- `isinstance(best_subtype, TurnoverSubType)` selects the main-type family;
the Python code returns the family's `.value` string. -/
def subtypeMainValue : SubtypeId → String
  | plStatement | tCaCertificate | balanceSheet | auditorReport | incomeTax | tOther =>
      "TURNOVER"
  | _ => "WORK_ORDER"

/-- `SUBTYPE_KEYWORDS.get(subtype, [])`: the two `OTHER` members are absent
from the dictionary, hence the empty default. -/
def subtypeKeywords : SubtypeId → List String
  | plStatement =>
      ["profit and loss", "p&l", "statement of profit and loss",
       "income statement", "revenue from operations", "expenses",
       "profit for the year", "loss for the year", "total revenue",
       "operating profit", "net profit", "ebitda"]
  | balanceSheet =>
      ["balance sheet", "financial position", "assets", "liabilities",
       "equity and liabilities", "shareholders funds", "share capital",
       "reserves and surplus", "current assets", "non-current assets",
       "property plant and equipment"]
  | tCaCertificate =>
      ["chartered accountant", "ca certificate", "certification",
       "certified that", "examined", "audit", "icai", "membership number",
       "firm registration number", "udin"]
  | auditorReport =>
      ["auditor's report", "independent auditor", "audit opinion",
       "audited financial statements", "basis for opinion",
       "key audit matters", "material uncertainty", "emphasis of matter"]
  | incomeTax =>
      ["income tax", "form 16", "form 16a", "tds certificate",
       "tax deducted at source", "tds", "income tax return", "itr",
       "tax computation", "advance tax", "assessment year", "pan"]
  | tOther => []
  | purchaseOrder =>
      ["purchase order", "po#", "order no", "order number",
       "vendor", "supplier", "buyer", "delivery address",
       "items", "quantity", "rate", "amount", "grand total",
       "gstin", "gst", "invoice"]
  | completionCertificate =>
      ["completion certificate", "work completion", "certificate of completion",
       "completed work", "satisfactory completion", "work done",
       "issued to", "certified that the work"]
  | workContract =>
      ["contract", "agreement", "contract agreement", "party of the first part",
       "party of the second part", "contractor", "contractee",
       "terms and conditions", "scope of work", "contract value",
       "contract period", "penalty clause"]
  | statementOfWork =>
      ["statement of work", "sow", "scope of work", "work breakdown",
       "deliverables", "milestones", "project scope", "work description",
       "tasks", "activities", "work items"]
  | woCaCertificate =>
      ["chartered accountant", "ca certificate", "certification",
       "certified that", "examined", "work order", "turnover certificate"]
  | woOther => []

/-- Iteration order of the two `for subtype in ...` loops in
`detect_subtype_from_keywords`: all Turnover members, then all Work Order
members, each family in declaration order. -/
def catalog : List SubtypeId :=
  [plStatement, tCaCertificate, balanceSheet, auditorReport, incomeTax, tOther,
   purchaseOrder, completionCertificate, workContract, statementOfWork,
   woCaCertificate, woOther]

/-! ## Sub-Type Detector (`src/segmentation/subtype_detector.py`) -/

/-- `' '.join(text_snippets).lower()`. -/
def combinedText (text_snippets : List String) : String :=
  pyLower (String.intercalate " " text_snippets)

/-- `sum(1 for kw in keywords if kw in combined_text)`. -/
def countMatches (text : String) (st : SubtypeId) : Nat :=
  (subtypeKeywords st).countP (fun kw => strContainsB text kw)

/-- The `scores` dictionary in its insertion order: each sub-type of the
catalog with a positive match count, paired with that count. -/
def scoresList (text : String) : List (SubtypeId × Nat) :=
  (catalog.map (fun st => (st, countMatches text st))).filter (fun p => 0 < p.2)

/-- Fold underlying Python `max(scores, key=scores.get)`: replaces the current
best only on a strictly greater value, so the first maximum wins. -/
def pickMaxAux {α : Type} (p : α × Nat) : List (α × Nat) → α × Nat
  | [] => p
  | q :: rest => pickMaxAux (if p.2 < q.2 then q else p) rest

/-- Python `max(scores, key=scores.get)` over the (insertion-ordered)
association list, `none` on the empty dictionary. -/
def pickMax {α : Type} : List (α × Nat) → Option (α × Nat)
  | [] => none
  | p :: rest => some (pickMaxAux p rest)

/-- `detect_subtype_from_keywords`: returns `(main_type, sub_type, confidence)`
with the Python `None, None, 0.0` cases rendered as `Option`s. -/
def detect_subtype_from_keywords (text_snippets : List String) :
    Option String × Option String × ℚ :=
  if text_snippets = [] then (none, none, 0)
  else
    match pickMax (scoresList (combinedText text_snippets)) with
    | none => (none, none, 0)
    | some (best, maxMatches) =>
      let mainType := subtypeMainValue best
      let subType := subtypeValue best
      let totalKeywords : ℚ := ((subtypeKeywords best).length : ℚ)
      let confidence : ℚ := min ((maxMatches : ℚ) / (totalKeywords * (3 / 10))) 1
      let confidence : ℚ := max confidence (3 / 10)
      (some mainType, some subType, confidence)

/-! ## Page records

A page analysis record (`{"success": ..., "page_number": ..., "data": {...}}`)
and its payload dictionary.  Optional dictionary keys are `Option` fields; the
`truthy` flag records Python dictionary truthiness (`{}` is falsy), which is
not a function of the observable `get` defaults. -/

structure PageData where
  page_number : Option Int := none
  document_type_hints : List String := []
  key_text_snippets : List String := []
  page_type : Option String := none
  has_tables : Bool := false
  has_forms : Bool := false
  is_document_start : Bool := false
  main_type : Option String := none
  sub_type : Option String := none
  sub_type_confidence : Option ℚ := none
  truthy : Bool := false
deriving DecidableEq, Repr

/-- The empty payload dictionary `{}` (every `get` yields its default). -/
def emptyData : PageData := {}

structure PageAnalysis where
  success : Bool := false
  page_number : Option Int := none
  data : Option PageData := none
deriving DecidableEq, Repr

/-- `analysis.get('data', {})`. -/
def getData (a : PageAnalysis) : PageData :=
  a.data.getD emptyData

/-! ## Page Record Normalizer (`FixedClassifier._extract_page_data`) -/

/-- Strategy 1: first record with `page_number == page_num and success`. -/
def strat1 (pas : List PageAnalysis) (n : Int) : Option PageData :=
  (pas.find? (fun a => decide (a.page_number = some n) && a.success)).map getData

/-- Strategy 2: the record at zero-based index `page_num - 1`, accepted only
when it succeeded (otherwise fall through, as the Python code does not
return). -/
def strat2 (pas : List PageAnalysis) (n : Int) : Option PageData :=
  if 0 ≤ n - 1 ∧ n - 1 < (pas.length : Int) then
    match pas[(n - 1).toNat]? with
    | some a => if a.success then some (getData a) else none
    | none => none
  else none

/-- Strategy 3's loop body: for each successful record, return its payload if
the payload-embedded page number matches, or — dead in context, see
`extract_eq_lookupContract` — if the running index equals `page_num - 1`. -/
def strat3Aux (n : Int) : Nat → List PageAnalysis → Option PageData
  | _, [] => none
  | i, a :: rest =>
    if a.success then
      let d := getData a
      if d.page_number = some n then some d
      else if (i : Int) = n - 1 then some d
      else strat3Aux n (i + 1) rest
    else strat3Aux n (i + 1) rest

def strat3 (pas : List PageAnalysis) (n : Int) : Option PageData :=
  strat3Aux n 0 pas

/-- `FixedClassifier._extract_page_data`: the three fallback strategies tried
in order. -/
def extract_page_data (pas : List PageAnalysis) (n : Int) : Option PageData :=
  match strat1 pas n with
  | some d => some d
  | none =>
    match strat2 pas n with
    | some d => some d
    | none => strat3 pas n

/-- The §4.1 lookup contract, written from the spec text: (1) first succeeded
record whose declared page number equals the request; else (2) the record at
zero-based index `page_number - 1`, if it succeeded; else (3) the first
succeeded record whose payload-embedded page number equals the request; else
absent. -/
def lookupContract (pas : List PageAnalysis) (n : Int) : Option PageData :=
  match pas.find? (fun a => decide (a.page_number = some n) && a.success) with
  | some a => some (getData a)
  | none =>
    match (if 0 ≤ n - 1 ∧ n - 1 < (pas.length : Int) then
             match pas[(n - 1).toNat]? with
             | some a => if a.success then some (getData a) else none
             | none => none
           else none : Option PageData) with
    | some d => some d
    | none =>
      (pas.find? (fun a => a.success && decide ((getData a).page_number = some n))).map getData

/-! ## Multi-Factor Classifier (`src/segmentation/classifier_fixed.py`) -/

/-- `self.wo_keywords`. -/
def wo_keywords : List String :=
  ["work order", "purchase order", "po#", "wo#", "order no",
   "invoice", "delivery address", "vendor", "supplier",
   "gstin", "gst", "items", "quantity", "rate", "amount",
   "completion certificate", "job order"]

/-- `self.turnover_keywords`. -/
def turnover_keywords : List String :=
  ["turnover", "revenue", "profit and loss", "p&l", "income statement",
   "balance sheet", "financial statement", "shareholders",
   "revenue from operations", "total revenue", "total income",
   "expenses", "profit", "loss", "fiscal year", "fy"]

/-- The first collection loop: `_extract_page_data` per page, keeping only
truthy payloads (`if page_data:` — `None` and `{}` are both falsy). -/
def collectAnalyses (segment_pages : List Int) (pas : List PageAnalysis) :
    List PageData :=
  segment_pages.filterMap (fun p =>
    match extract_page_data pas p with
    | some d => if d.truthy then some d else none
    | none => none)

/-- The "last resort" loop: direct array access, appending the payload of any
in-range succeeded record without a truthiness check. -/
def lastResort (segment_pages : List Int) (pas : List PageAnalysis) :
    List PageData :=
  segment_pages.filterMap (fun p =>
    if 0 ≤ p - 1 ∧ p - 1 < (pas.length : Int) then
      match pas[(p - 1).toNat]? with
      | some a => if a.success then some (getData a) else none
      | none => none
    else none)

/-- The `segment_analyses` list that the scoring factors run over. -/
def segmentAnalyses (segment_pages : List Int) (pas : List PageAnalysis) :
    List PageData :=
  let c := collectAnalyses segment_pages pas
  if c = [] then lastResort segment_pages pas else c

/-- Factor 1 numerator: pages whose `document_type_hints` contain
`'WORK_ORDER'`. -/
def woHintsL (L : List PageData) : Nat :=
  L.countP (fun d => d.document_type_hints.contains "WORK_ORDER")

def tHintsL (L : List PageData) : Nat :=
  L.countP (fun d => d.document_type_hints.contains "TURNOVER")

/-- `' '.join(all_snippets).lower()` across the segment's payloads. -/
def classifierText (L : List PageData) : String :=
  pyLower (String.intercalate " " (L.map (fun d => d.key_text_snippets)).flatten)

def woMatchesL (L : List PageData) : Nat :=
  wo_keywords.countP (fun kw => strContainsB (classifierText L) kw)

def tMatchesL (L : List PageData) : Nat :=
  turnover_keywords.countP (fun kw => strContainsB (classifierText L) kw)

def pageTypesL (L : List PageData) : List (Option String) :=
  L.map (fun d => d.page_type)

/-- Factor 3 Turnover bonus test on `combined_text.lower()`. -/
def financialBonus (L : List PageData) : Bool :=
  strContainsB (pyLower (classifierText L)) "financial" ||
  strContainsB (pyLower (classifierText L)) "balance" ||
  strContainsB (pyLower (classifierText L)) "profit and loss"

def hasTablesL (L : List PageData) : Bool := L.any (fun d => d.has_tables)

def hasFormsL (L : List PageData) : Bool := L.any (fun d => d.has_forms)

/-- The un-clamped `wo_score` after the four factors. -/
def woScore (L : List PageData) : ℚ :=
  ((woHintsL L : ℚ) / (L.length : ℚ)) * 40
    + (if 0 < woMatchesL L + tMatchesL L then
        ((woMatchesL L : ℚ) / ((woMatchesL L + tMatchesL L : Nat) : ℚ)) * 30 else 0)
    + (if (pageTypesL L).contains (some "CERTIFICATE") then 20 else 0)
    + (if hasTablesL L then 5 else 0)
    + (if hasFormsL L then 5 else 0)

/-- The un-clamped `turnover_score` after the four factors. -/
def tScore (L : List PageData) : ℚ :=
  ((tHintsL L : ℚ) / (L.length : ℚ)) * 40
    + (if 0 < woMatchesL L + tMatchesL L then
        ((tMatchesL L : ℚ) / ((woMatchesL L + tMatchesL L : Nat) : ℚ)) * 30 else 0)
    + (if financialBonus L then 20 else 0)
    + (if hasTablesL L then 5 else 0)

structure Classification where
  document_type : String
  confidence : ℚ
  reasoning : String
  segment_pages : List Int
  score_work_order : ℚ
  score_turnover : ℚ
deriving DecidableEq, Repr

/-- `FixedClassifier._build_reasoning`. -/
def build_reasoning (doc_type : String) (hint_count keyword_count : Nat)
    (page_types : List (Option String)) : String :=
  let reasons : List String :=
    (if 0 < hint_count then [s!"Found {doc_type} hints in {hint_count} page(s)"] else [])
      ++ (if 0 < keyword_count then [s!"{keyword_count} keyword matches"] else [])
      ++ (if page_types.contains (some "CERTIFICATE") ∧ doc_type = "WORK_ORDER" then
            ["Contains certificate page"] else [])
  let reasons := if reasons = [] then [s!"Pattern match for {doc_type}"] else reasons
  String.intercalate "; " reasons

/-- `FixedClassifier.classify_segment` (the returned dictionary; log `print`s
are omitted).  `DocumentType` values are the lowercase strings of
`src/config/document_types.py`. -/
def classify_segment (segment_pages : List Int) (pas : List PageAnalysis) :
    Classification :=
  let L := segmentAnalyses segment_pages pas
  if L = [] then
    { document_type := "unknown"
      confidence := 0
      reasoning := "Could not extract page analyses (indexing issue)"
      segment_pages := segment_pages
      score_work_order := 0
      score_turnover := 0 }
  else
    let woC := min (woScore L) 100
    let tC := min (tScore L) 100
    if tC < woC then
      { document_type := "work_order"
        confidence := woC / 100
        reasoning := build_reasoning "WORK_ORDER" (woHintsL L) (woMatchesL L) (pageTypesL L)
        segment_pages := segment_pages
        score_work_order := woC / 100
        score_turnover := tC / 100 }
    else if woC < tC then
      { document_type := "turnover"
        confidence := tC / 100
        reasoning := build_reasoning "TURNOVER" (tHintsL L) (tMatchesL L) (pageTypesL L)
        segment_pages := segment_pages
        score_work_order := woC / 100
        score_turnover := tC / 100 }
    else if tHintsL L ≤ woHintsL L then
      { document_type := "work_order"
        confidence := 1 / 2
        reasoning := "Tie - defaulting to Work Order"
        segment_pages := segment_pages
        score_work_order := woC / 100
        score_turnover := tC / 100 }
    else
      { document_type := "turnover"
        confidence := 1 / 2
        reasoning := "Tie - defaulting to Turnover"
        segment_pages := segment_pages
        score_work_order := woC / 100
        score_turnover := tC / 100 }

/-! ## Homogeneous Segment Builder (`src/segmentation/enhanced_segmentation.py`) -/

structure Segment where
  start_page : Int
  end_page : Int
  main_type : Option String
  sub_type : Option String
  pages : List Int
  confidence : ℚ
deriving DecidableEq, Repr

/-- Python `str(...)` of an optional string, as used by the f-string that
builds the combined sub-type label. -/
def pyStr : Option String → String
  | none => "None"
  | some s => s

/-- Loop of `create_homogeneous_segments`: 1-based index `i`, the open
`current_segment`, and the remaining records.  Failed records are skipped
(`continue`) but still advance the index. -/
def chsAux : Int → Option Segment → List PageAnalysis → List Segment
  | _, none, [] => []
  | _, some c, [] => [c]
  | i, cur, a :: rest =>
    if a.success then
      let d := getData a
      let conf := d.sub_type_confidence.getD 0
      match cur with
      | none =>
        chsAux (i + 1)
          (some ⟨i, i, d.main_type, d.sub_type, [i], conf⟩) rest
      | some c =>
        if d.sub_type ≠ c.sub_type ∨ d.main_type ≠ c.main_type then
          c :: chsAux (i + 1)
            (some ⟨i, i, d.main_type, d.sub_type, [i], conf⟩) rest
        else
          chsAux (i + 1)
            (some { c with
                      end_page := i
                      pages := c.pages ++ [i]
                      confidence := (c.confidence + conf) / 2 }) rest
    else chsAux (i + 1) cur rest

/-- `create_homogeneous_segments`. -/
def create_homogeneous_segments (pas : List PageAnalysis) : List Segment :=
  chsAux 1 none pas

/-- Absorption of a low-confidence singleton into the previous output
segment: extend `end_page`, append `pages`, combine the sub-type label. -/
def absorbSeg (prev cur : Segment) : Segment :=
  { prev with
      end_page := cur.end_page
      pages := prev.pages ++ cur.pages
      sub_type := some (pyStr prev.sub_type ++ " + " ++ pyStr cur.sub_type) }

/-- Loop of `merge_single_page_segments`: input index `i`, the `merged`
output list (in reverse, head = most recent), and the remaining input.
`merged[-1]` on an empty output is Python `IndexError`, rendered as `none`. -/
def mergeAux (θ : ℚ) : Int → List Segment → List Segment → Option (List Segment)
  | _, acc, [] => some acc.reverse
  | i, acc, s :: rest =>
    if s.end_page - s.start_page = 0 ∧ s.confidence < θ ∧ 0 < i then
      match acc with
      | [] => none
      | prev :: accTail =>
        if prev.main_type = s.main_type then
          mergeAux θ (i + 1) (absorbSeg prev s :: accTail) rest
        else
          mergeAux θ (i + 1) (s :: acc) rest
    else mergeAux θ (i + 1) (s :: acc) rest

/-- `merge_single_page_segments` (threshold `min_confidence`, Python default
`0.6`); `none` would mean an uncaught `IndexError`. -/
def merge_single_page_segments (segments : List Segment) (min_confidence : ℚ) :
    Option (List Segment) :=
  if segments.length ≤ 1 then some segments
  else mergeAux min_confidence 0 [] segments

/-- The spec §4.5 merge pass, written from the spec text: a single
left-to-right pass; a segment is absorbed into the immediately preceding
output segment exactly when it spans one page, its confidence is below the
threshold, it is not the first segment, and the previous output segment's
main type matches; otherwise it is emitted unchanged. -/
def mergeSpecGo (θ : ℚ) : List Segment → List Segment → List Segment
  | acc, [] => acc.reverse
  | [], s :: rest => mergeSpecGo θ [s] rest
  | prev :: accTail, s :: rest =>
    if s.start_page = s.end_page ∧ s.confidence < θ ∧ prev.main_type = s.main_type then
      mergeSpecGo θ (absorbSeg prev s :: accTail) rest
    else mergeSpecGo θ (s :: prev :: accTail) rest

/-- Spec-side merge pass: the first segment is always emitted unmerged, then
each later segment either merges backward into the last output segment or is
appended. -/
def merge_pass_spec (θ : ℚ) : List Segment → List Segment
  | [] => []
  | s :: rest => mergeSpecGo θ [s] rest

/-! ## Boundary Detector (`PageAnalyzer.get_document_boundaries`) -/

/-- Loop of `get_document_boundaries`: `N = len(analyses)` is fixed, `i` is
the 1-based index, `cur` is `current_start`.  A succeeded record without a
`'data'` key would raise `KeyError` (`analysis['data']`), rendered as
`none`. -/
def gdbAux (N : Int) : Int → Int → List PageAnalysis → Option (List (Int × Int))
  | _, cur, [] => some (if cur ≤ N then [(cur, N)] else [])
  | i, cur, a :: rest =>
    if a.success then
      match a.data with
      | none => none
      | some d =>
        if 1 < i ∧ d.is_document_start then
          (gdbAux N (i + 1) i rest).map (fun b => (cur, i - 1) :: b)
        else gdbAux N (i + 1) cur rest
    else gdbAux N (i + 1) cur rest

/-- `PageAnalyzer.get_document_boundaries`. -/
def get_document_boundaries (analyses : List PageAnalysis) :
    Option (List (Int × Int)) :=
  gdbAux (analyses.length : Int) 1 1 analyses

/-! ## Page ranges and partition chains -/

/-- The integer interval `[a..b]` as a list (empty when `b < a`). -/
def intRange (a b : Int) : List Int :=
  (List.range (b + 1 - a).toNat).map (fun k => a + Int.ofNat k)

/-- `chainSpan k l m`: the segments of `l`, in order, tile the page interval
`[k..m-1]`: each starts where the previous ended plus one, is non-empty, and
carries exactly its own interval as `pages`. -/
def chainSpan : Int → List Segment → Int → Prop
  | k, [], m => m = k
  | k, s :: rest, m =>
    s.start_page = k ∧ s.start_page ≤ s.end_page ∧
      s.pages = intRange s.start_page s.end_page ∧
      chainSpan (s.end_page + 1) rest m

/-- `pairChain k l m`: the `(start, end)` pairs of `l` tile `[k..m-1]`. -/
def pairChain : Int → List (Int × Int) → Int → Prop
  | k, [], m => m = k
  | k, p :: rest, m => p.1 = k ∧ p.1 ≤ p.2 ∧ pairChain (p.2 + 1) rest m

/-- Test fixture: an empty-but-truthy payload dictionary. -/
def emptyTruthyData : PageData := { truthy := true }

/-- Test fixture: a truthy payload hinting `WORK_ORDER`. -/
def woHintData : PageData :=
  { truthy := true, document_type_hints := ["WORK_ORDER"] }

/-- Test fixture: one succeeded record for page 1 with an empty-but-truthy
payload. -/
def samplePageEmpty : PageAnalysis :=
  { success := true, page_number := some 1, data := some emptyTruthyData }

/-- Test fixture: one succeeded record for page 1 whose payload hints
`WORK_ORDER`. -/
def samplePageWoHint : PageAnalysis :=
  { success := true, page_number := some 1, data := some woHintData }

/-! ## Theorems -/

/-- Strategy 3's index branch (`if i == page_num - 1`) is dead whenever no
in-range succeeded record sits at index `page_num - 1`; the loop then reduces
to the first succeeded record with a matching payload-embedded page number. -/
theorem strat3Aux_eq_find (n : Int) :
    ∀ (l : List PageAnalysis) (i : Nat),
      (∀ j a, l[j]? = some a → ((i + j : Nat) : Int) = n - 1 → a.success = false) →
      strat3Aux n i l =
        (l.find? (fun a => a.success && decide ((getData a).page_number = some n))).map
          getData := by
  intro l
  induction l with
  | nil => intro i _; rfl
  | cons a rest ih =>
    intro i hdead
    have hrest : ∀ j b, rest[j]? = some b → (((i + 1) + j : Nat) : Int) = n - 1 →
        b.success = false := by
      intro j b hj hij
      exact hdead (j + 1) b (by simpa using hj) (by push_cast at hij ⊢; omega)
    by_cases hs : a.success
    · by_cases hpn : (getData a).page_number = some n
      · simp [strat3Aux, hs, hpn, List.find?_cons_of_pos]
      · have hnotidx : ¬ ((i : Int) = n - 1) := by
          intro hidx
          have := hdead 0 a (by simp) (by push_cast; omega)
          simp [hs] at this
        have h := ih (i + 1) hrest
        simp [strat3Aux, hs, hpn, hnotidx, h]
    · have h := ih (i + 1) hrest
      simp [strat3Aux, hs, h]

/-- C7: `_extract_page_data` behaves exactly as the single ordered
three-strategy precedence contract of §4.1: declared-page-number match with
success, else succeeded positional record at index `page_number - 1`, else
first succeeded record with matching payload-embedded page number, else
absent; in particular it is total (absence is `none`, never an error). -/
theorem extract_eq_lookupContract (pas : List PageAnalysis) (n : Int) :
    extract_page_data pas n = lookupContract pas n := by
  unfold extract_page_data lookupContract strat1 strat2 strat3
  cases hf : pas.find? (fun a => decide (a.page_number = some n) && a.success) with
  | some a => simp
  | none =>
    cases h2 : (if 0 ≤ n - 1 ∧ n - 1 < (pas.length : Int) then
                  match pas[(n - 1).toNat]? with
                  | some a => if a.success then some (getData a) else none
                  | none => none
                else none : Option PageData) with
    | some d => simp
    | none =>
      simp only []
      apply strat3Aux_eq_find
      intro j b hj hij
      have hjlt : j < pas.length := by
        rcases List.getElem?_eq_some.mp hj with ⟨h, _⟩
        exact h
      have hc : 0 ≤ n - 1 ∧ n - 1 < (pas.length : Int) := by push_cast at hij; omega
      have hj' : j = (n - 1).toNat := by push_cast at hij; omega
      rw [if_pos hc, ← hj', hj] at h2
      cases hsucc : b.success with
      | false => rfl
      | true => simp [hsucc] at h2

/-- The starting pair never beats the fold result. -/
theorem pickMaxAux_ge_start {α : Type} (l : List (α × Nat)) (p : α × Nat) :
    p.2 ≤ (pickMaxAux p l).2 := by
  induction l generalizing p with
  | nil => exact Nat.le_refl _
  | cons q rest ih =>
    by_cases hpq : p.2 < q.2
    · have : pickMaxAux p (q :: rest) = pickMaxAux q rest := by simp [pickMaxAux, hpq]
      rw [this]
      exact Nat.le_trans (Nat.le_of_lt hpq) (ih q)
    · have : pickMaxAux p (q :: rest) = pickMaxAux p rest := by simp [pickMaxAux, hpq]
      rw [this]
      exact ih p

/-- First-maximum characterization of the fold behind Python
`max(d, key=d.get)`: the result splits the list into strictly smaller earlier
entries and no-larger later entries. -/
theorem pickMaxAux_split {α : Type} (l : List (α × Nat)) (p : α × Nat) :
    ∃ l₁ l₂, p :: l = l₁ ++ pickMaxAux p l :: l₂ ∧
      (∀ q ∈ l₁, q.2 < (pickMaxAux p l).2) ∧
      (∀ q ∈ l₂, q.2 ≤ (pickMaxAux p l).2) := by
  induction l generalizing p with
  | nil => exact ⟨[], [], rfl, by simp, by simp⟩
  | cons q rest ih =>
    by_cases hpq : p.2 < q.2
    · have hstep : pickMaxAux p (q :: rest) = pickMaxAux q rest := by
        simp [pickMaxAux, hpq]
      rcases ih q with ⟨l₁, l₂, heq, h₁, h₂⟩
      rw [hstep]
      refine ⟨p :: l₁, l₂, by rw [List.cons_append, ← heq], ?_, h₂⟩
      intro x hx
      rcases List.mem_cons.mp hx with hx | hx
      · subst hx
        exact Nat.lt_of_lt_of_le hpq (pickMaxAux_ge_start rest q)
      · exact h₁ x hx
    · have hstep : pickMaxAux p (q :: rest) = pickMaxAux p rest := by
        simp [pickMaxAux, hpq]
      rcases ih p with ⟨l₁, l₂, heq, h₁, h₂⟩
      rw [hstep]
      cases l₁ with
      | nil =>
        simp only [List.nil_append] at heq
        have hp : p = pickMaxAux p rest := (List.cons.injEq _ _ _ _).mp heq |>.1
        have hrest : rest = l₂ := (List.cons.injEq _ _ _ _).mp heq |>.2
        refine ⟨[], q :: rest, by rw [List.nil_append, ← hp], by simp, ?_⟩
        intro x hx
        rcases List.mem_cons.mp hx with hx | hx
        · subst hx
          rw [← hp]
          exact Nat.le_of_not_lt hpq
        · rw [hrest] at hx
          exact h₂ x hx
      | cons y l₁' =>
        have hy : p = y := ((List.cons.injEq _ _ _ _).mp heq).1
        have hrest : rest = l₁' ++ pickMaxAux p rest :: l₂ :=
          ((List.cons.injEq _ _ _ _).mp heq).2
        subst hy
        refine ⟨p :: q :: l₁', l₂, by nth_rewrite 1 [hrest]; rfl, ?_, h₂⟩
        intro x hx
        have hpbound : p.2 < (pickMaxAux p rest).2 := h₁ p (List.mem_cons_self _ _)
        rcases List.mem_cons.mp hx with hx | hx
        · subst hx; exact hpbound
        rcases List.mem_cons.mp hx with hx | hx
        · subst hx
          exact Nat.lt_of_le_of_lt (Nat.le_of_not_lt hpq) hpbound
        · exact h₁ x (List.mem_cons_of_mem _ hx)

/-- `pickMax` returns the first entry attaining the maximal count. -/
theorem pickMax_split {α : Type} {l : List (α × Nat)} {r : α × Nat}
    (h : pickMax l = some r) :
    ∃ l₁ l₂, l = l₁ ++ r :: l₂ ∧ (∀ q ∈ l₁, q.2 < r.2) ∧ (∀ q ∈ l₂, q.2 ≤ r.2) := by
  cases l with
  | nil => simp [pickMax] at h
  | cons p rest =>
    have hr : pickMaxAux p rest = r := by
      simpa [pickMax] using h
    rcases pickMaxAux_split rest p with ⟨l₁, l₂, heq, h₁, h₂⟩
    rw [hr] at heq h₁ h₂
    exact ⟨l₁, l₂, heq, h₁, h₂⟩

/-- Membership facts about the `scores` association list. -/
theorem mem_scoresList {t : String} {q : SubtypeId × Nat} (h : q ∈ scoresList t) :
    q.1 ∈ catalog ∧ countMatches t q.1 = q.2 ∧ 0 < q.2 := by
  rcases List.mem_filter.mp h with ⟨hmem, hpos⟩
  rcases List.mem_map.mp hmem with ⟨st, hst, hq⟩
  subst hq
  exact ⟨hst, rfl, by simpa using hpos⟩

/-- C4: whenever the maximal keyword match count is positive (the `scores`
dictionary is non-empty, so `max` returns a best sub-type with `m > 0`
matches), the returned confidence is exactly
`min(m / (keyword_count * 0.3), 1.0)` floored at `0.3`, hence lies in
`[0.3, 1]`. -/
theorem detect_subtype_confidence (snips : List String) (best : SubtypeId) (m : Nat)
    (hne : snips ≠ [])
    (h : pickMax (scoresList (combinedText snips)) = some (best, m)) :
    (detect_subtype_from_keywords snips).2.2
        = max (min ((m : ℚ) / (((subtypeKeywords best).length : ℚ) * (3 / 10))) 1) (3 / 10)
      ∧ 3 / 10 ≤ (detect_subtype_from_keywords snips).2.2
      ∧ (detect_subtype_from_keywords snips).2.2 ≤ 1 := by
  have hval : (detect_subtype_from_keywords snips).2.2
      = max (min ((m : ℚ) / (((subtypeKeywords best).length : ℚ) * (3 / 10))) 1) (3 / 10) := by
    simp [detect_subtype_from_keywords, hne, h]
  refine ⟨hval, ?_, ?_⟩
  · rw [hval]
    exact le_max_right _ _
  · rw [hval]
    exact max_le (le_trans (min_le_right _ _) le_rfl) (by norm_num)

/-- C4 witness: the snippet "profit and loss" matches one P&L keyword, and
the confidence comes out as `0.3 = max (min (1/3.6) 1) 0.3`. -/
theorem detect_subtype_confidence_witness :
    ["profit and loss"] ≠ ([] : List String)
      ∧ pickMax (scoresList (combinedText ["profit and loss"]))
          = some (SubtypeId.plStatement, 1)
      ∧ ((detect_subtype_from_keywords ["profit and loss"]).2.2
            = max (min ((1 : ℚ) / (((subtypeKeywords SubtypeId.plStatement).length : ℚ)
                  * (3 / 10))) 1) (3 / 10)
          ∧ 3 / 10 ≤ (detect_subtype_from_keywords ["profit and loss"]).2.2
          ∧ (detect_subtype_from_keywords ["profit and loss"]).2.2 ≤ 1) :=
  ⟨by decide, by decide,
    detect_subtype_confidence ["profit and loss"] SubtypeId.plStatement 1
      (by decide) (by decide)⟩

/-- C5: with a positive maximal match count, the detector selects the
first-declared sub-type of the catalog attaining the maximum (the `scores`
list, which is in catalog order, splits at the winner into strictly smaller
earlier counts and no-larger later counts), and the result is a function of
the combined lowercased text alone. -/
theorem detect_subtype_first_declared (snips : List String) (best : SubtypeId) (m : Nat)
    (hne : snips ≠ [])
    (h : pickMax (scoresList (combinedText snips)) = some (best, m)) :
    (detect_subtype_from_keywords snips).1 = some (subtypeMainValue best)
      ∧ (detect_subtype_from_keywords snips).2.1 = some (subtypeValue best)
      ∧ best ∈ catalog ∧ countMatches (combinedText snips) best = m ∧ 0 < m
      ∧ (∀ st ∈ catalog, countMatches (combinedText snips) st ≤ m)
      ∧ (∃ l₁ l₂, scoresList (combinedText snips) = l₁ ++ (best, m) :: l₂
          ∧ (∀ q ∈ l₁, q.2 < m) ∧ (∀ q ∈ l₂, q.2 ≤ m))
      ∧ (∀ snips', snips' ≠ [] → combinedText snips' = combinedText snips →
          detect_subtype_from_keywords snips' = detect_subtype_from_keywords snips) := by
  rcases pickMax_split h with ⟨l₁, l₂, heq, h₁, h₂⟩
  have hmem : (best, m) ∈ scoresList (combinedText snips) := by
    rw [heq]
    exact List.mem_append_right _ (List.mem_cons_self _ _)
  rcases mem_scoresList hmem with ⟨hcat, hcount, hpos⟩
  refine ⟨by simp [detect_subtype_from_keywords, hne, h],
    by simp [detect_subtype_from_keywords, hne, h], hcat, hcount, hpos, ?_,
    ⟨l₁, l₂, heq, h₁, h₂⟩, ?_⟩
  · intro st hst
    by_cases hz : 0 < countMatches (combinedText snips) st
    · have hmem' : (st, countMatches (combinedText snips) st)
          ∈ scoresList (combinedText snips) := by
        refine List.mem_filter.mpr ⟨List.mem_map.mpr ⟨st, hst, rfl⟩, by simpa using hz⟩
      rw [heq] at hmem'
      rcases List.mem_append.mp hmem' with hin | hin
      · exact Nat.le_of_lt (h₁ _ hin)
      · rcases List.mem_cons.mp hin with hin | hin
        · exact Nat.le_of_eq (congrArg Prod.snd hin)
        · exact h₂ _ hin
    · omega
  · intro snips' hne' htext
    simp [detect_subtype_from_keywords, hne, hne', htext]

/-- C5 witness: on the snippet "profit and loss" the winner is the
first-declared sub-type `P&L Statement` with one match. -/
theorem detect_subtype_first_declared_witness :
    ["profit and loss"] ≠ ([] : List String)
      ∧ pickMax (scoresList (combinedText ["profit and loss"]))
          = some (SubtypeId.plStatement, 1)
      ∧ (detect_subtype_from_keywords ["profit and loss"]).2.1
          = some (subtypeValue SubtypeId.plStatement)
      ∧ (detect_subtype_from_keywords ["profit and loss"]).1
          = some (subtypeMainValue SubtypeId.plStatement) :=
  ⟨by decide, by decide,
    (detect_subtype_first_declared ["profit and loss"] SubtypeId.plStatement 1
      (by decide) (by decide)).2.1,
    (detect_subtype_first_declared ["profit and loss"] SubtypeId.plStatement 1
      (by decide) (by decide)).1⟩

/-- If the three-strategy lookup fails, its positional strategy in
particular fails. -/
theorem strat2_eq_none_of_extract (pas : List PageAnalysis) (n : Int)
    (h : extract_page_data pas n = none) : strat2 pas n = none := by
  unfold extract_page_data at h
  cases h1 : strat1 pas n with
  | some d => rw [h1] at h; simp at h
  | none =>
    rw [h1] at h
    cases h2 : strat2 pas n with
    | some d => rw [h2] at h; simp at h
    | none => rfl

/-- The classifier's "last resort" loop is exactly the positional strategy
applied page by page. -/
theorem lastResort_eq (sp : List Int) (pas : List PageAnalysis) :
    lastResort sp pas = sp.filterMap (fun p => strat2 pas p) := rfl

/-- C2 (amended): when every page of the segment fails to resolve to a
payload, `classify_segment` returns `UNKNOWN` with confidence `0.0`, zero
scores and the fixed reasoning string
`"Could not extract page analyses (indexing issue)"`, and is total. -/
theorem classify_segment_no_data (sp : List Int) (pas : List PageAnalysis)
    (hne : sp ≠ []) (habs : ∀ p ∈ sp, extract_page_data pas p = none) :
    classify_segment sp pas =
      { document_type := "unknown"
        confidence := 0
        reasoning := "Could not extract page analyses (indexing issue)"
        segment_pages := sp
        score_work_order := 0
        score_turnover := 0 } := by
  have hcol : collectAnalyses sp pas = [] := by
    refine List.filterMap_eq_nil.mpr ?_
    intro p hp
    rw [habs p hp]
  have hlr : lastResort sp pas = [] := by
    rw [lastResort_eq]
    refine List.filterMap_eq_nil.mpr ?_
    intro p hp
    exact strat2_eq_none_of_extract pas p (habs p hp)
  have hseg : segmentAnalyses sp pas = [] := by
    unfold segmentAnalyses
    simp [hcol, hlr]
  simp [classify_segment, hseg]

/-- C2 witness: one requested page, no records at all. -/
theorem classify_segment_no_data_witness :
    ([1] : List Int) ≠ []
      ∧ (∀ p ∈ ([1] : List Int), extract_page_data [] p = none)
      ∧ classify_segment [1] [] =
          { document_type := "unknown"
            confidence := 0
            reasoning := "Could not extract page analyses (indexing issue)"
            segment_pages := [1]
            score_work_order := 0
            score_turnover := 0 } :=
  ⟨by decide, by decide, classify_segment_no_data [1] [] (by decide) (by decide)⟩

/-- C2 counterexample: on a segment with no resolvable page data the claim's
required `(UNKNOWN, 0.0)` part holds, but the reasoning string does not
mention "no valid" (in either capitalization) — it is the fixed classifier's
"Could not extract page analyses (indexing issue)". -/
theorem classify_segment_reasoning_cex :
    (∀ p ∈ ([1] : List Int), extract_page_data [] p = none)
      ∧ (classify_segment [1] []).document_type = "unknown"
      ∧ (classify_segment [1] []).confidence = 0
      ∧ strContainsB (classify_segment [1] []).reasoning "no valid" = false
      ∧ strContainsB (classify_segment [1] []).reasoning "No valid" = false
      ∧ (classify_segment [1] []).reasoning
          = "Could not extract page analyses (indexing issue)" := by
  refine ⟨by decide, by decide, by decide, by decide, by decide, by decide⟩

/-- C3: when the two clamped factor totals are exactly equal the classifier
falls into its tie branch: equal F1 hint counts give `WORK_ORDER` with
confidence exactly `0.5` and a tie-flagged reasoning, and unequal hint counts
hand the win (still at confidence `0.5`) to the type with the larger hint
count. -/
theorem classify_segment_tie_rules (sp : List Int) (pas : List PageAnalysis)
    (hne : segmentAnalyses sp pas ≠ [])
    (heq : min (woScore (segmentAnalyses sp pas)) 100
         = min (tScore (segmentAnalyses sp pas)) 100) :
    (woHintsL (segmentAnalyses sp pas) = tHintsL (segmentAnalyses sp pas) →
        (classify_segment sp pas).document_type = "work_order"
          ∧ (classify_segment sp pas).confidence = 1 / 2
          ∧ (classify_segment sp pas).reasoning = "Tie - defaulting to Work Order")
      ∧ (tHintsL (segmentAnalyses sp pas) < woHintsL (segmentAnalyses sp pas) →
          (classify_segment sp pas).document_type = "work_order"
            ∧ (classify_segment sp pas).confidence = 1 / 2
            ∧ (classify_segment sp pas).reasoning = "Tie - defaulting to Work Order")
      ∧ (woHintsL (segmentAnalyses sp pas) < tHintsL (segmentAnalyses sp pas) →
          (classify_segment sp pas).document_type = "turnover"
            ∧ (classify_segment sp pas).confidence = 1 / 2
            ∧ (classify_segment sp pas).reasoning = "Tie - defaulting to Turnover") := by
  have hlt1 : ¬ (min (tScore (segmentAnalyses sp pas)) 100
      < min (woScore (segmentAnalyses sp pas)) 100) := by rw [heq]; exact lt_irrefl _
  have hlt2 : ¬ (min (woScore (segmentAnalyses sp pas)) 100
      < min (tScore (segmentAnalyses sp pas)) 100) := by rw [heq]; exact lt_irrefl _
  simp only [classify_segment]
  rw [if_neg hne, if_neg hlt1, if_neg hlt2]
  refine ⟨?_, ?_, ?_⟩
  · intro hh
    rw [if_pos (le_of_eq hh.symm)]
    exact ⟨rfl, rfl, rfl⟩
  · intro hh
    rw [if_pos (le_of_lt hh)]
    exact ⟨rfl, rfl, rfl⟩
  · intro hh
    rw [if_neg (not_le.mpr hh)]
    exact ⟨rfl, rfl, rfl⟩

/-- C3 witness: a single succeeded page with an empty (but truthy) payload
gives `0 = 0` scores and `0 = 0` hint counts, so the tie defaults to
`WORK_ORDER` at confidence `0.5`. -/
theorem classify_segment_tie_rules_witness :
    segmentAnalyses [1] [samplePageEmpty] ≠ []
      ∧ min (woScore (segmentAnalyses [1] [samplePageEmpty])) 100
        = min (tScore (segmentAnalyses [1] [samplePageEmpty])) 100
      ∧ ((classify_segment [1] [samplePageEmpty]).document_type = "work_order"
          ∧ (classify_segment [1] [samplePageEmpty]).confidence = 1 / 2
          ∧ (classify_segment [1] [samplePageEmpty]).reasoning
            = "Tie - defaulting to Work Order") := by
  have hL : segmentAnalyses [1] [samplePageEmpty]
      = [emptyTruthyData] := by decide
  have hwo : woScore [emptyTruthyData] = 0 := by
    have h1 : woHintsL [emptyTruthyData] = 0 := by decide
    have h2 : woMatchesL [emptyTruthyData] = 0 := by decide
    have h3 : tMatchesL [emptyTruthyData] = 0 := by decide
    have h4 : (pageTypesL [emptyTruthyData]).contains
        (some "CERTIFICATE") = false := by decide
    have h5 : hasTablesL [emptyTruthyData] = false := by decide
    have h6 : hasFormsL [emptyTruthyData] = false := by decide
    unfold woScore
    rw [h1, h2, h3, h4, h5, h6]
    simp
  have hts : tScore [emptyTruthyData] = 0 := by
    have h1 : tHintsL [emptyTruthyData] = 0 := by decide
    have h2 : woMatchesL [emptyTruthyData] = 0 := by decide
    have h3 : tMatchesL [emptyTruthyData] = 0 := by decide
    have h4 : financialBonus [emptyTruthyData] = false := by decide
    have h5 : hasTablesL [emptyTruthyData] = false := by decide
    unfold tScore
    rw [h1, h2, h3, h4, h5]
    simp
  have heq : min (woScore (segmentAnalyses [1] [samplePageEmpty])) 100
      = min (tScore (segmentAnalyses [1] [samplePageEmpty])) 100 := by
    rw [hL, hwo, hts]
  exact ⟨by decide, heq,
    (classify_segment_tie_rules [1] [samplePageEmpty] (by decide) heq).1 (by decide)⟩

theorem woScore_nonneg (L : List PageData) : 0 ≤ woScore L := by
  unfold woScore
  have h1 : (0 : ℚ) ≤ ((woHintsL L : ℚ) / (L.length : ℚ)) * 40 := by positivity
  have h2 : (0 : ℚ) ≤ (if 0 < woMatchesL L + tMatchesL L then
      ((woMatchesL L : ℚ) / ((woMatchesL L + tMatchesL L : Nat) : ℚ)) * 30 else 0) := by
    split
    · positivity
    · exact le_refl 0
  have h3 : (0 : ℚ) ≤ (if (pageTypesL L).contains (some "CERTIFICATE") then
      (20 : ℚ) else 0) := by split <;> norm_num
  have h4 : (0 : ℚ) ≤ (if hasTablesL L then (5 : ℚ) else 0) := by split <;> norm_num
  have h5 : (0 : ℚ) ≤ (if hasFormsL L then (5 : ℚ) else 0) := by split <;> norm_num
  exact add_nonneg (add_nonneg (add_nonneg (add_nonneg h1 h2) h3) h4) h5

theorem tScore_nonneg (L : List PageData) : 0 ≤ tScore L := by
  unfold tScore
  have h1 : (0 : ℚ) ≤ ((tHintsL L : ℚ) / (L.length : ℚ)) * 40 := by positivity
  have h2 : (0 : ℚ) ≤ (if 0 < woMatchesL L + tMatchesL L then
      ((tMatchesL L : ℚ) / ((woMatchesL L + tMatchesL L : Nat) : ℚ)) * 30 else 0) := by
    split
    · positivity
    · exact le_refl 0
  have h3 : (0 : ℚ) ≤ (if financialBonus L then (20 : ℚ) else 0) := by
    split <;> norm_num
  have h4 : (0 : ℚ) ≤ (if hasTablesL L then (5 : ℚ) else 0) := by split <;> norm_num
  exact add_nonneg (add_nonneg (add_nonneg h1 h2) h3) h4

/-- C9 (amended): for a segment with resolvable page data, the returned
`scores` map carries, for each candidate type, the clamped four-factor sum
divided by 100 — a value in `[0, 1]`, not the `[0, 100]` sum itself. -/
theorem classification_scores_map (sp : List Int) (pas : List PageAnalysis)
    (hne : segmentAnalyses sp pas ≠ []) :
    (classify_segment sp pas).score_work_order
        = min (woScore (segmentAnalyses sp pas)) 100 / 100
      ∧ (classify_segment sp pas).score_turnover
        = min (tScore (segmentAnalyses sp pas)) 100 / 100
      ∧ 0 ≤ (classify_segment sp pas).score_work_order
      ∧ (classify_segment sp pas).score_work_order ≤ 1
      ∧ 0 ≤ (classify_segment sp pas).score_turnover
      ∧ (classify_segment sp pas).score_turnover ≤ 1 := by
  have hkey : ((classify_segment sp pas).score_work_order,
      (classify_segment sp pas).score_turnover)
      = (min (woScore (segmentAnalyses sp pas)) 100 / 100,
         min (tScore (segmentAnalyses sp pas)) 100 / 100) := by
    simp only [classify_segment]
    rw [if_neg hne]
    split
    · rfl
    · split
      · rfl
      · split
        · rfl
        · rfl
  have e1 : (classify_segment sp pas).score_work_order
      = min (woScore (segmentAnalyses sp pas)) 100 / 100 := congrArg Prod.fst hkey
  have e2 : (classify_segment sp pas).score_turnover
      = min (tScore (segmentAnalyses sp pas)) 100 / 100 := congrArg Prod.snd hkey
  have hw0 : (0 : ℚ) ≤ min (woScore (segmentAnalyses sp pas)) 100 :=
    le_min (woScore_nonneg _) (by norm_num)
  have ht0 : (0 : ℚ) ≤ min (tScore (segmentAnalyses sp pas)) 100 :=
    le_min (tScore_nonneg _) (by norm_num)
  refine ⟨e1, e2, ?_, ?_, ?_, ?_⟩
  · rw [e1]; positivity
  · rw [e1]
    rw [div_le_one (by norm_num : (0:ℚ) < 100)]
    exact min_le_right _ _
  · rw [e2]; positivity
  · rw [e2]
    rw [div_le_one (by norm_num : (0:ℚ) < 100)]
    exact min_le_right _ _

/-- C9 witness: one page hinting `WORK_ORDER` gives a clamped sum of `40` and
a scores-map entry of `0.4`. -/
theorem classification_scores_map_witness :
    segmentAnalyses [1] [samplePageWoHint] ≠ []
      ∧ (classify_segment [1] [samplePageWoHint]).score_work_order
        = min (woScore (segmentAnalyses [1] [samplePageWoHint])) 100 / 100 :=
  ⟨by decide,
    (classification_scores_map [1] [samplePageWoHint] (by decide)).1⟩

/-- C9 counterexample: on a one-page segment hinting `WORK_ORDER` the clamped
factor sum is `40`, but the returned scores-map entry is `0.4`, so the map
does not carry the `[0, 100]` summed-component values the claim states. -/
theorem classification_scores_cex :
    min (woScore (segmentAnalyses [1] [samplePageWoHint])) 100 = 40
      ∧ (classify_segment [1] [samplePageWoHint]).score_work_order = 2 / 5
      ∧ (classify_segment [1] [samplePageWoHint]).score_work_order
          ≠ min (woScore (segmentAnalyses [1] [samplePageWoHint])) 100 := by
  have hL : segmentAnalyses [1] [samplePageWoHint]
      = [woHintData] := by decide
  have hwo : woScore [woHintData] = 40 := by
    have h1 : woHintsL [woHintData] = 1 := by decide
    have h2 : woMatchesL [woHintData] = 0 := by decide
    have h3 : tMatchesL [woHintData] = 0 := by decide
    have h4 : (pageTypesL [woHintData]).contains
        (some "CERTIFICATE") = false := by decide
    have h5 : hasTablesL [woHintData] = false := by decide
    have h6 : hasFormsL [woHintData] = false := by decide
    unfold woScore
    rw [h1, h2, h3, h4, h5, h6]
    norm_num
  have hts : tScore [woHintData] = 0 := by
    have h1 : tHintsL [woHintData] = 0 := by decide
    have h2 : woMatchesL [woHintData] = 0 := by decide
    have h3 : tMatchesL [woHintData] = 0 := by decide
    have h4 : financialBonus [woHintData] = false := by decide
    have h5 : hasTablesL [woHintData] = false := by decide
    unfold tScore
    rw [h1, h2, h3, h4, h5]
    simp
  have hmin : min (woScore (segmentAnalyses [1] [samplePageWoHint])) 100 = 40 := by
    rw [hL, hwo]
    norm_num
  have hscore : (classify_segment [1] [samplePageWoHint]).score_work_order = 2 / 5 := by
    simp only [classify_segment]
    rw [hL, hwo, hts]
    rw [if_neg (by simp : ¬ ([woHintData] = []))]
    rw [if_pos (by norm_num : min (0 : ℚ) 100 < min (40 : ℚ) 100)]
    norm_num
  refine ⟨hmin, hscore, ?_⟩
  rw [hscore, hmin]
  norm_num

/-- With a positive input index and a non-empty output accumulator, the code
merge loop agrees with the spec-side single pass (in particular `merged[-1]`
is never read on an empty output). -/
theorem mergeAux_eq_spec (θ : ℚ) :
    ∀ (rest : List Segment) (i : Int) (acc : List Segment), 0 < i → acc ≠ [] →
      mergeAux θ i acc rest = some (mergeSpecGo θ acc rest) := by
  intro rest
  induction rest with
  | nil =>
    intro i acc _ hacc
    cases acc with
    | nil => exact absurd rfl hacc
    | cons prev tail => rfl
  | cons s rest ih =>
    intro i acc hi hacc
    cases acc with
    | nil => exact absurd rfl hacc
    | cons prev tail =>
      by_cases hsl : s.end_page - s.start_page = 0 ∧ s.confidence < θ
      · obtain ⟨hsingle, hlow⟩ := hsl
        have hse : s.start_page = s.end_page := by omega
        by_cases hmain : prev.main_type = s.main_type
        · have hcode : mergeAux θ i (prev :: tail) (s :: rest)
              = mergeAux θ (i + 1) (absorbSeg prev s :: tail) rest := by
            simp [mergeAux, hsingle, hlow, hi, hmain]
          have hspec : mergeSpecGo θ (prev :: tail) (s :: rest)
              = mergeSpecGo θ (absorbSeg prev s :: tail) rest := by
            simp [mergeSpecGo, hse, hlow, hmain]
          rw [hcode, hspec]
          exact ih (i + 1) (absorbSeg prev s :: tail) (by omega) (by simp)
        · have hcode : mergeAux θ i (prev :: tail) (s :: rest)
              = mergeAux θ (i + 1) (s :: prev :: tail) rest := by
            simp [mergeAux, hsingle, hlow, hi, hmain]
          have hspec : mergeSpecGo θ (prev :: tail) (s :: rest)
              = mergeSpecGo θ (s :: prev :: tail) rest := by
            simp [mergeSpecGo, hse, hlow, hmain]
          rw [hcode, hspec]
          exact ih (i + 1) (s :: prev :: tail) (by omega) (by simp)
      · have hnc : ¬ (s.end_page - s.start_page = 0 ∧ s.confidence < θ ∧ 0 < i) := by
          intro h
          exact hsl ⟨h.1, h.2.1⟩
        have hns : ¬ (s.start_page = s.end_page ∧ s.confidence < θ
            ∧ prev.main_type = s.main_type) := by
          intro h
          exact hsl ⟨by omega, h.2.1⟩
        have hcode : mergeAux θ i (prev :: tail) (s :: rest)
            = mergeAux θ (i + 1) (s :: prev :: tail) rest := by
          simp only [mergeAux]
          rw [if_neg hnc]
        have hspec : mergeSpecGo θ (prev :: tail) (s :: rest)
            = mergeSpecGo θ (s :: prev :: tail) rest := by
          simp only [mergeSpecGo]
          rw [if_neg hns]
        rw [hcode, hspec]
        exact ih (i + 1) (s :: prev :: tail) (by omega) (by simp)

/-- The code merge pass equals the spec-side single pass (shared helper). -/
theorem merge_code_eq_spec (θ : ℚ) (segments : List Segment) :
    merge_single_page_segments segments θ = some (merge_pass_spec θ segments) := by
  unfold merge_single_page_segments merge_pass_spec
  cases segments with
  | nil => simp
  | cons s rest =>
    cases rest with
    | nil => simp [mergeSpecGo]
    | cons s2 rest2 =>
      have hlen : ¬ ((s :: s2 :: rest2).length ≤ 1) := by simp
      rw [if_neg hlen]
      have h0 : mergeAux θ 0 [] (s :: s2 :: rest2)
          = mergeAux θ 1 [s] (s2 :: rest2) := by
        simp [mergeAux]
      rw [h0]
      exact mergeAux_eq_spec θ (s2 :: rest2) 1 [s] one_pos (by simp)

/-- C8: `merge_single_page_segments` is exactly the spec's single
left-to-right pass: a segment is absorbed into the immediately preceding
output segment precisely when it spans one page, its confidence is below the
threshold, it is not the first segment, and the preceding output segment's
main type equals its own; absorption extends `end_page`, appends the pages
and combines the sub-type label, and the absorbed segment is consumed (never
re-examined). -/
theorem merge_equals_spec_pass (θ : ℚ) (segments : List Segment) :
    merge_single_page_segments segments θ = some (merge_pass_spec θ segments) :=
  merge_code_eq_spec θ segments

/-- C10: the merge pass is total — the `merged[-1]` read (modelled as `none`
on an empty output list) never fails, because the first input segment is
always emitted unmerged before any merge branch runs. -/
theorem merge_never_index_error (segments : List Segment) (θ : ℚ) :
    (merge_single_page_segments segments θ).isSome := by
  unfold merge_single_page_segments
  cases segments with
  | nil => simp
  | cons s rest =>
    cases rest with
    | nil => simp
    | cons s2 rest2 =>
      have hlen : ¬ ((s :: s2 :: rest2).length ≤ 1) := by simp
      rw [if_neg hlen]
      have h0 : mergeAux θ 0 [] (s :: s2 :: rest2)
          = mergeAux θ 1 [s] (s2 :: rest2) := by
        simp [mergeAux]
      rw [h0, mergeAux_eq_spec θ (s2 :: rest2) 1 [s] one_pos (by simp)]
      rfl

/-- Confidence-bound invariant of the segment-building loop: if every
record's `sub_type_confidence` (default `0.0`) is in `[0, 1]` and the open
segment's running confidence is, then every emitted segment's confidence
is. -/
theorem chsAux_confidence :
    ∀ (pas : List PageAnalysis) (i : Int) (cur : Option Segment),
      (∀ a ∈ pas, 0 ≤ ((getData a).sub_type_confidence.getD 0)
          ∧ ((getData a).sub_type_confidence.getD 0) ≤ 1) →
      (∀ c, cur = some c → 0 ≤ c.confidence ∧ c.confidence ≤ 1) →
      ∀ s ∈ chsAux i cur pas, 0 ≤ s.confidence ∧ s.confidence ≤ 1 := by
  intro pas
  induction pas with
  | nil =>
    intro i cur _ hcur s hs
    cases cur with
    | none => simp [chsAux] at hs
    | some c =>
      simp only [chsAux, List.mem_singleton] at hs
      subst hs
      exact hcur s rfl
  | cons a rest ih =>
    intro i cur hpas hcur s hs
    have hrest : ∀ b ∈ rest, 0 ≤ ((getData b).sub_type_confidence.getD 0)
        ∧ ((getData b).sub_type_confidence.getD 0) ≤ 1 :=
      fun b hb => hpas b (List.mem_cons_of_mem _ hb)
    have ha := hpas a (List.mem_cons_self _ _)
    by_cases hsucc : a.success
    · cases cur with
      | none =>
        refine ih (i + 1) _ hrest ?_ s (by simpa [chsAux, hsucc] using hs)
        intro c hc
        cases hc
        exact ha
      | some c =>
        by_cases hch : (getData a).sub_type ≠ c.sub_type
            ∨ (getData a).main_type ≠ c.main_type
        · have hs' : s = c ∨ s ∈ chsAux (i + 1)
              (some ⟨i, i, (getData a).main_type, (getData a).sub_type, [i],
                (getData a).sub_type_confidence.getD 0⟩) rest := by
            simpa [chsAux, hsucc, hch] using hs
          rcases hs' with rfl | hs'
          · exact hcur s rfl
          · refine ih (i + 1) _ hrest ?_ s hs'
            intro c' hc'
            cases hc'
            exact ha
        · have hs' : s ∈ chsAux (i + 1)
              (some { c with
                        end_page := i
                        pages := c.pages ++ [i]
                        confidence := (c.confidence
                          + (getData a).sub_type_confidence.getD 0) / 2 }) rest := by
            simpa [chsAux, hsucc, hch] using hs
          refine ih (i + 1) _ hrest ?_ s hs'
          intro c' hc'
          cases hc'
          have hc := hcur c rfl
          constructor
          · simp only []
            linarith [ha.1, hc.1]
          · simp only []
            linarith [ha.2, hc.2]
    · exact ih (i + 1) cur hrest hcur s (by simpa [chsAux, hsucc] using hs)

/-- The spec-side merge pass only ever carries forward confidences already
present: absorbing keeps the previous segment's confidence unchanged. -/
theorem mergeSpecGo_confidence (θ : ℚ) :
    ∀ (rest acc : List Segment),
      (∀ s ∈ acc, 0 ≤ s.confidence ∧ s.confidence ≤ 1) →
      (∀ s ∈ rest, 0 ≤ s.confidence ∧ s.confidence ≤ 1) →
      ∀ s ∈ mergeSpecGo θ acc rest, 0 ≤ s.confidence ∧ s.confidence ≤ 1 := by
  intro rest
  induction rest with
  | nil =>
    intro acc hacc _ s hs
    cases acc with
    | nil => simp [mergeSpecGo] at hs
    | cons prev tail =>
      simp only [mergeSpecGo] at hs
      exact hacc s (List.mem_reverse.mp hs)
  | cons t rest ih =>
    intro acc hacc hrest s hs
    have ht := hrest t (List.mem_cons_self _ _)
    have hrest' : ∀ x ∈ rest, 0 ≤ x.confidence ∧ x.confidence ≤ 1 :=
      fun x hx => hrest x (List.mem_cons_of_mem _ hx)
    cases acc with
    | nil =>
      refine ih [t] ?_ hrest' s (by simpa [mergeSpecGo] using hs)
      intro x hx
      rw [List.mem_singleton] at hx
      subst hx
      exact ht
    | cons prev tail =>
      have hprev := hacc prev (List.mem_cons_self _ _)
      have htail : ∀ x ∈ tail, 0 ≤ x.confidence ∧ x.confidence ≤ 1 :=
        fun x hx => hacc x (List.mem_cons_of_mem _ hx)
      by_cases hcond : t.start_page = t.end_page ∧ t.confidence < θ
          ∧ prev.main_type = t.main_type
      · have hs' : s ∈ mergeSpecGo θ (absorbSeg prev t :: tail) rest := by
          simp only [mergeSpecGo] at hs
          rwa [if_pos hcond] at hs
        refine ih (absorbSeg prev t :: tail) ?_ hrest' s hs'
        intro x hx
        rcases List.mem_cons.mp hx with hx | hx
        · subst hx
          simpa [absorbSeg] using hprev
        · exact htail x hx
      · have hs' : s ∈ mergeSpecGo θ (t :: prev :: tail) rest := by
          simp only [mergeSpecGo] at hs
          rwa [if_neg hcond] at hs
        refine ih (t :: prev :: tail) ?_ hrest' s hs'
        intro x hx
        rcases List.mem_cons.mp hx with hx | hx
        · subst hx; exact ht
        rcases List.mem_cons.mp hx with hx | hx
        · subst hx; exact hprev
        · exact htail x hx

/-- Confidence bounds survive the code merge pass. -/
theorem merge_confidence (θ : ℚ) (segs : List Segment)
    (hsegs : ∀ s ∈ segs, 0 ≤ s.confidence ∧ s.confidence ≤ 1) :
    ∀ m, merge_single_page_segments segs θ = some m →
      ∀ s ∈ m, 0 ≤ s.confidence ∧ s.confidence ≤ 1 := by
  intro m hm s hs
  unfold merge_single_page_segments at hm
  by_cases hlen : segs.length ≤ 1
  · rw [if_pos hlen] at hm
    cases hm
    exact hsegs s hs
  · rw [if_neg hlen] at hm
    cases segs with
    | nil => exact absurd (by simp) hlen
    | cons s1 rest =>
      cases rest with
      | nil => exact absurd (by simp) hlen
      | cons s2 rest2 =>
        have h0 : mergeAux θ 0 [] (s1 :: s2 :: rest2)
            = mergeAux θ 1 [s1] (s2 :: rest2) := by
          simp [mergeAux]
        rw [h0, mergeAux_eq_spec θ (s2 :: rest2) 1 [s1] one_pos (by simp)] at hm
        cases hm
        refine mergeSpecGo_confidence θ (s2 :: rest2) [s1] ?_ ?_ s hs
        · intro x hx
          rw [List.mem_singleton] at hx
          rw [hx]
          exact hsegs s1 (List.mem_cons_self _ _)
        · intro x hx
          exact hsegs x (List.mem_cons_of_mem _ hx)

/-- C6: every confidence the core produces is in `[0, 1]` — the Sub-Type
Detector's confidence always, the Multi-Factor Classifier's confidence
always, and the Homogeneous Segment Builder's segment confidences (including
the incremental averages, before and after the merge pass) whenever the
per-page `sub_type_confidence` inputs it averages are themselves in
`[0, 1]`. -/
theorem confidence_bounds :
    (∀ snips : List String, 0 ≤ (detect_subtype_from_keywords snips).2.2
        ∧ (detect_subtype_from_keywords snips).2.2 ≤ 1)
      ∧ (∀ (sp : List Int) (pas : List PageAnalysis),
          0 ≤ (classify_segment sp pas).confidence
            ∧ (classify_segment sp pas).confidence ≤ 1)
      ∧ (∀ (pas : List PageAnalysis) (θ : ℚ),
          (∀ a ∈ pas, 0 ≤ ((getData a).sub_type_confidence.getD 0)
              ∧ ((getData a).sub_type_confidence.getD 0) ≤ 1) →
          (∀ s ∈ create_homogeneous_segments pas,
              0 ≤ s.confidence ∧ s.confidence ≤ 1)
            ∧ ∀ m, merge_single_page_segments (create_homogeneous_segments pas) θ
                = some m → ∀ s ∈ m, 0 ≤ s.confidence ∧ s.confidence ≤ 1) := by
  refine ⟨?_, ?_, ?_⟩
  · intro snips
    by_cases hne : snips = []
    · simp [detect_subtype_from_keywords, hne]
    · cases hp : pickMax (scoresList (combinedText snips)) with
      | none => simp [detect_subtype_from_keywords, hne, hp]
      | some r =>
        obtain ⟨best, m⟩ := r
        have hval : (detect_subtype_from_keywords snips).2.2
            = max (min ((m : ℚ) / (((subtypeKeywords best).length : ℚ) * (3 / 10))) 1)
                (3 / 10) := by
          simp [detect_subtype_from_keywords, hne, hp]
        rw [hval]
        constructor
        · exact le_trans (by norm_num) (le_max_right _ _)
        · exact max_le (min_le_right _ _) (by norm_num)
  · intro sp pas
    by_cases hne : segmentAnalyses sp pas = []
    · simp [classify_segment, hne]
    · have hkey : (classify_segment sp pas).confidence
          = min (woScore (segmentAnalyses sp pas)) 100 / 100
        ∨ (classify_segment sp pas).confidence
          = min (tScore (segmentAnalyses sp pas)) 100 / 100
        ∨ (classify_segment sp pas).confidence = 1 / 2 := by
        simp only [classify_segment]
        rw [if_neg hne]
        split
        · exact Or.inl rfl
        · split
          · exact Or.inr (Or.inl rfl)
          · split
            · exact Or.inr (Or.inr rfl)
            · exact Or.inr (Or.inr rfl)
      have hw0 : (0 : ℚ) ≤ min (woScore (segmentAnalyses sp pas)) 100 :=
        le_min (woScore_nonneg _) (by norm_num)
      have ht0 : (0 : ℚ) ≤ min (tScore (segmentAnalyses sp pas)) 100 :=
        le_min (tScore_nonneg _) (by norm_num)
      rcases hkey with h | h | h <;> rw [h]
      · constructor
        · positivity
        · rw [div_le_one (by norm_num : (0:ℚ) < 100)]
          exact min_le_right _ _
      · constructor
        · positivity
        · rw [div_le_one (by norm_num : (0:ℚ) < 100)]
          exact min_le_right _ _
      · norm_num
  · intro pas θ hpas
    have hcreate : ∀ s ∈ create_homogeneous_segments pas,
        0 ≤ s.confidence ∧ s.confidence ≤ 1 := by
      intro s hs
      exact chsAux_confidence pas 1 none hpas (by intro c hc; cases hc) s hs
    exact ⟨hcreate, merge_confidence θ _ hcreate⟩

/-- C6 witness: a one-record input with `sub_type_confidence` absent
(defaulting to `0.0`) satisfies the input-bound hypothesis, and the produced
segment confidences are bounded. -/
theorem confidence_bounds_witness :
    (∀ a ∈ [samplePageEmpty], 0 ≤ ((getData a).sub_type_confidence.getD 0)
        ∧ ((getData a).sub_type_confidence.getD 0) ≤ 1)
      ∧ (∀ s ∈ create_homogeneous_segments [samplePageEmpty],
          0 ≤ s.confidence ∧ s.confidence ≤ 1) :=
  ⟨by decide, (confidence_bounds.2.2 [samplePageEmpty] (3 / 5) (by decide)).1⟩

theorem intRange_empty (a b : Int) (h : b < a) : intRange a b = [] := by
  unfold intRange
  have hz : (b + 1 - a).toNat = 0 := by omega
  rw [hz]
  rfl

theorem intRange_single (a : Int) : intRange a a = [a] := by
  unfold intRange
  have h1 : (a + 1 - a).toNat = 1 := by omega
  rw [h1]
  simp [List.range_succ]

theorem intRange_append (a b c : Int) (h1 : a ≤ b + 1) (h2 : b ≤ c) :
    intRange a b ++ intRange (b + 1) c = intRange a c := by
  unfold intRange
  have hn : (c + 1 - a).toNat = (b + 1 - a).toNat + (c + 1 - (b + 1)).toNat := by omega
  rw [hn, List.range_add, List.map_append, List.map_map]
  congr 1
  apply List.map_congr_left
  intro k _
  simp only [Function.comp_apply, Int.ofNat_eq_coe]
  push_cast
  omega

theorem chainSpan_append (m : Int) (xs : List Segment) :
    ∀ (k : Int) (ys : List Segment),
      chainSpan k (xs ++ ys) m ↔ ∃ j, chainSpan k xs j ∧ chainSpan j ys m := by
  induction xs with
  | nil =>
    intro k ys
    constructor
    · intro h
      exact ⟨k, rfl, h⟩
    · rintro ⟨j, hj, h⟩
      have : j = k := hj
      rwa [this] at h
  | cons s xs ih =>
    intro k ys
    constructor
    · rintro ⟨h1, h2, h3, h4⟩
      rcases (ih _ _).mp h4 with ⟨j, hj1, hj2⟩
      exact ⟨j, ⟨h1, h2, h3, hj1⟩, hj2⟩
    · rintro ⟨j, ⟨h1, h2, h3, hj1⟩, hj2⟩
      exact ⟨h1, h2, h3, (ih _ _).mpr ⟨j, hj1, hj2⟩⟩

theorem chainSpan_flatten (m : Int) :
    ∀ (l : List Segment) (k : Int), chainSpan k l m →
      (l.map Segment.pages).flatten = intRange k (m - 1) ∧ k ≤ m := by
  intro l
  induction l with
  | nil =>
    intro k h
    have hk : m = k := h
    subst hk
    constructor
    · rw [intRange_empty _ _ (by omega)]
      rfl
    · exact le_refl m
  | cons s rest ih =>
    intro k h
    obtain ⟨h1, h2, h3, h4⟩ := h
    rcases ih _ h4 with ⟨hfl, hkm⟩
    constructor
    · simp only [List.map_cons, List.flatten_cons, hfl, h3, h1]
      rw [← h1]
      exact intRange_append _ _ _ (by omega) (by omega)
    · omega

theorem chainSpan_mem (m : Int) :
    ∀ (l : List Segment) (k : Int), chainSpan k l m →
      ∀ s ∈ l, s.start_page ≤ s.end_page
        ∧ s.pages = intRange s.start_page s.end_page := by
  intro l
  induction l with
  | nil => intro k _ s hs; simp at hs
  | cons t rest ih =>
    intro k h s hs
    obtain ⟨h1, h2, h3, h4⟩ := h
    rcases List.mem_cons.mp hs with hs | hs
    · subst hs
      exact ⟨h2, h3⟩
    · exact ih _ h4 s hs

theorem chainSpan_adjacent (m : Int) :
    ∀ (l : List Segment) (k : Int), chainSpan k l m →
      l.Chain' (fun s t => s.end_page + 1 = t.start_page) := by
  intro l
  induction l with
  | nil => intro k _; exact List.chain'_nil
  | cons s rest ih =>
    intro k h
    obtain ⟨h1, h2, h3, h4⟩ := h
    cases rest with
    | nil => exact List.chain'_singleton s
    | cons t rest2 =>
      rw [List.chain'_cons]
      exact ⟨h4.1.symm, ih _ h4⟩

theorem pairChain_flatten (m : Int) :
    ∀ (b : List (Int × Int)) (k : Int), pairChain k b m →
      (b.map (fun p => intRange p.1 p.2)).flatten = intRange k (m - 1) ∧ k ≤ m := by
  intro b
  induction b with
  | nil =>
    intro k h
    have hk : m = k := h
    subst hk
    constructor
    · rw [intRange_empty _ _ (by omega)]
      rfl
    · exact le_refl m
  | cons p rest ih =>
    intro k h
    obtain ⟨h1, h2, h3⟩ := h
    rcases ih _ h3 with ⟨hfl, hkm⟩
    constructor
    · simp only [List.map_cons, List.flatten_cons, hfl, h1]
      rw [← h1]
      exact intRange_append _ _ _ (by omega) (by omega)
    · omega

theorem pairChain_mem (m : Int) :
    ∀ (b : List (Int × Int)) (k : Int), pairChain k b m →
      ∀ p ∈ b, p.1 ≤ p.2 := by
  intro b
  induction b with
  | nil => intro k _ p hp; simp at hp
  | cons q rest ih =>
    intro k h p hp
    obtain ⟨h1, h2, h3⟩ := h
    rcases List.mem_cons.mp hp with hp | hp
    · subst hp
      exact h2
    · exact ih _ h3 p hp

theorem pairChain_adjacent (m : Int) :
    ∀ (b : List (Int × Int)) (k : Int), pairChain k b m →
      b.Chain' (fun p q => p.2 + 1 = q.1) := by
  intro b
  induction b with
  | nil => intro k _; exact List.chain'_nil
  | cons p rest ih =>
    intro k h
    obtain ⟨h1, h2, h3⟩ := h
    cases rest with
    | nil => exact List.chain'_singleton p
    | cons q rest2 =>
      rw [List.chain'_cons]
      exact ⟨h3.1.symm, ih _ h3⟩

/-- When every record succeeds, the segment-building loop extends the open
segment page by page, producing a chain that tiles the processed interval. -/
theorem chsAux_chain :
    ∀ (pas : List PageAnalysis) (i : Int) (c : Segment) (m : Int),
      (∀ a ∈ pas, a.success = true) →
      c.start_page ≤ c.end_page →
      c.end_page = i - 1 →
      c.pages = intRange c.start_page c.end_page →
      m = i + pas.length →
      chainSpan c.start_page (chsAux i (some c) pas) m := by
  intro pas
  induction pas with
  | nil =>
    intro i c m _ hle hend hpages hm
    refine ⟨rfl, hle, hpages, ?_⟩
    show m = c.end_page + 1
    simp at hm
    omega
  | cons a rest ih =>
    intro i c m hsucc hle hend hpages hm
    have ha : a.success = true := hsucc a (List.mem_cons_self _ _)
    have hrest : ∀ b ∈ rest, b.success = true :=
      fun b hb => hsucc b (List.mem_cons_of_mem _ hb)
    have hm' : m = (i + 1) + (rest.length : Int) := by
      rw [hm]
      push_cast [List.length_cons]
      omega
    by_cases hch : (getData a).sub_type ≠ c.sub_type
        ∨ (getData a).main_type ≠ c.main_type
    · have hstep : chsAux i (some c) (a :: rest)
          = c :: chsAux (i + 1)
              (some ⟨i, i, (getData a).main_type, (getData a).sub_type, [i],
                (getData a).sub_type_confidence.getD 0⟩) rest := by
        simp [chsAux, ha, hch]
      rw [hstep]
      refine ⟨rfl, hle, hpages, ?_⟩
      have htail := ih (i + 1)
        ⟨i, i, (getData a).main_type, (getData a).sub_type, [i],
          (getData a).sub_type_confidence.getD 0⟩ m hrest (le_refl i)
        (by show i = i + 1 - 1; omega)
        (by show [i] = intRange i i; rw [intRange_single]) hm'
      have hce : c.end_page + 1 = i := by omega
      rw [hce]
      exact htail
    · have hstep : chsAux i (some c) (a :: rest)
          = chsAux (i + 1)
              (some { c with
                        end_page := i
                        pages := c.pages ++ [i]
                        confidence := (c.confidence
                          + (getData a).sub_type_confidence.getD 0) / 2 }) rest := by
        simp [chsAux, ha, hch]
      rw [hstep]
      have hpages' : c.pages ++ [i] = intRange c.start_page i := by
        have happ := intRange_append c.start_page (i - 1) i (by omega) (by omega)
        have hi : i - 1 + 1 = i := by omega
        rw [hi, intRange_single] at happ
        rw [hpages, hend]
        exact happ
      have htail := ih (i + 1)
        { c with
            end_page := i
            pages := c.pages ++ [i]
            confidence := (c.confidence
              + (getData a).sub_type_confidence.getD 0) / 2 } m hrest
        (by show c.start_page ≤ i; omega)
        (by show i = i + 1 - 1; omega)
        (by show c.pages ++ [i] = intRange c.start_page i; exact hpages') hm'
      exact htail

/-- When every record succeeds, `create_homogeneous_segments` tiles
`[1..N]`. -/
theorem create_chain (pas : List PageAnalysis) (hne : pas ≠ [])
    (hsucc : ∀ a ∈ pas, a.success = true) :
    chainSpan 1 (create_homogeneous_segments pas) ((pas.length : Int) + 1) := by
  cases pas with
  | nil => exact absurd rfl hne
  | cons a rest =>
    have ha : a.success = true := hsucc a (List.mem_cons_self _ _)
    have hstep : create_homogeneous_segments (a :: rest)
        = chsAux 2
            (some ⟨1, 1, (getData a).main_type, (getData a).sub_type, [1],
              (getData a).sub_type_confidence.getD 0⟩) rest := by
      simp [create_homogeneous_segments, chsAux, ha]
    rw [hstep]
    exact chsAux_chain rest 2
      ⟨1, 1, (getData a).main_type, (getData a).sub_type, [1],
        (getData a).sub_type_confidence.getD 0⟩ (((a :: rest).length : Int) + 1)
      (fun b hb => hsucc b (List.mem_cons_of_mem _ hb)) (le_refl 1)
      (by show (1 : Int) = 2 - 1; omega)
      (by show [(1 : Int)] = intRange 1 1; rw [intRange_single])
      (by push_cast [List.length_cons]; omega)

/-- The spec-side merge pass preserves the chain tiling: absorbing a
singleton into the previous output segment concatenates two adjacent
intervals. -/
theorem mergeSpecGo_chain (θ : ℚ) :
    ∀ (rest acc : List Segment) (k j m : Int),
      acc ≠ [] → chainSpan k acc.reverse j → chainSpan j rest m →
      chainSpan k (mergeSpecGo θ acc rest) m := by
  intro rest
  induction rest with
  | nil =>
    intro acc k j m hacc h1 h2
    have hj : m = j := h2
    subst hj
    cases acc with
    | nil => exact absurd rfl hacc
    | cons prev tail => exact h1
  | cons t rest ih =>
    intro acc k j m hacc h1 h2
    obtain ⟨ht1, ht2, ht3, ht4⟩ := h2
    cases acc with
    | nil => exact absurd rfl hacc
    | cons prev tail =>
      rcases (chainSpan_append j _ _ _).mp (by simpa using h1) with ⟨j0, hj0, hprev⟩
      obtain ⟨hp1, hp2, hp3, hp4⟩ := hprev
      have hj : j = prev.end_page + 1 := hp4
      by_cases hcond : t.start_page = t.end_page ∧ t.confidence < θ
          ∧ prev.main_type = t.main_type
      · have hstep : mergeSpecGo θ (prev :: tail) (t :: rest)
            = mergeSpecGo θ (absorbSeg prev t :: tail) rest := by
          simp only [mergeSpecGo]
          rw [if_pos hcond]
        rw [hstep]
        have habs : chainSpan j0 [absorbSeg prev t] (t.end_page + 1) := by
          refine ⟨?_, ?_, ?_, ?_⟩
          · show prev.start_page = j0
            exact hp1
          · show prev.start_page ≤ t.end_page
            omega
          · show prev.pages ++ t.pages
              = intRange prev.start_page t.end_page
            rw [hp3, ht3]
            have hts : t.start_page = prev.end_page + 1 := by omega
            rw [hts]
            exact intRange_append _ _ _ (by omega) (by omega)
          · show t.end_page + 1 = t.end_page + 1
            rfl
        have hacc' : chainSpan k (absorbSeg prev t :: tail).reverse
            (t.end_page + 1) := by
          simp only [List.reverse_cons]
          exact (chainSpan_append _ _ _ _).mpr ⟨j0, hj0, habs⟩
        exact ih (absorbSeg prev t :: tail) k (t.end_page + 1) m (by simp)
          hacc' ht4
      · have hstep : mergeSpecGo θ (prev :: tail) (t :: rest)
            = mergeSpecGo θ (t :: prev :: tail) rest := by
          simp only [mergeSpecGo]
          rw [if_neg hcond]
        rw [hstep]
        have hacc' : chainSpan k (t :: prev :: tail).reverse (t.end_page + 1) := by
          simp only [List.reverse_cons]
          refine (chainSpan_append _ _ _ _).mpr ⟨j, ?_, ⟨ht1, ht2, ht3, rfl⟩⟩
          simpa using h1
        exact ih (t :: prev :: tail) k (t.end_page + 1) m (by simp) hacc' ht4

/-- The boundary-detection loop always returns, and its pairs tile the
remaining interval, provided every succeeded record carries its payload. -/
theorem gdbAux_chain (N : Int) :
    ∀ (pas : List PageAnalysis) (i cur : Int),
      (∀ a ∈ pas, a.success = true → a.data.isSome) →
      i + (pas.length : Int) = N + 1 →
      1 ≤ cur →
      (cur ≤ i - 1 ∨ (i = 1 ∧ cur = 1)) →
      ∃ b, gdbAux N i cur pas = some b ∧ pairChain cur b (N + 1) := by
  intro pas
  induction pas with
  | nil =>
    intro i cur _ hlen hcur1 hcuri
    have hiN : i = N + 1 := by simpa using hlen
    by_cases hle : cur ≤ N
    · refine ⟨[(cur, N)], ?_, rfl, hle, rfl⟩
      show some (if cur ≤ N then [(cur, N)] else []) = some [(cur, N)]
      rw [if_pos hle]
    · refine ⟨[], ?_, ?_⟩
      · show some (if cur ≤ N then [(cur, N)] else []) = some []
        rw [if_neg hle]
      · show N + 1 = cur
        omega
  | cons a rest ih =>
    intro i cur hdata hlen hcur1 hcuri
    have hdata' : ∀ b ∈ rest, b.success = true → b.data.isSome :=
      fun b hb => hdata b (List.mem_cons_of_mem _ hb)
    have hlen' : (i + 1) + (rest.length : Int) = N + 1 := by
      push_cast [List.length_cons] at hlen
      omega
    by_cases hs : a.success = true
    · have hd : a.data.isSome := hdata a (List.mem_cons_self _ _) hs
      obtain ⟨d, hd⟩ := Option.isSome_iff_exists.mp hd
      by_cases htr : 1 < i ∧ d.is_document_start = true
      · have hstep : gdbAux N i cur (a :: rest)
            = (gdbAux N (i + 1) i rest).map (fun b => (cur, i - 1) :: b) := by
          simp [gdbAux, hs, hd, htr]
        rcases ih (i + 1) i hdata' hlen' (by omega) (by left; omega)
          with ⟨b, hb, hchain⟩
        refine ⟨(cur, i - 1) :: b, ?_, rfl, ?_, ?_⟩
        · rw [hstep, hb]
          rfl
        · show cur ≤ i - 1
          omega
        · show pairChain (i - 1 + 1) b (N + 1)
          have hi : i - 1 + 1 = i := by omega
          rw [hi]
          exact hchain
      · have hstep : gdbAux N i cur (a :: rest)
            = gdbAux N (i + 1) cur rest := by
          simp [gdbAux, hs, hd, htr]
        rcases ih (i + 1) cur hdata' hlen' hcur1 (by omega)
          with ⟨b, hb, hchain⟩
        exact ⟨b, by rw [hstep, hb], hchain⟩
    · have hstep : gdbAux N i cur (a :: rest)
          = gdbAux N (i + 1) cur rest := by
        simp [gdbAux, hs]
      rcases ih (i + 1) cur hdata' hlen' hcur1 (by omega)
        with ⟨b, hb, hchain⟩
      exact ⟨b, by rw [hstep, hb], hchain⟩

/-- The spec-side merge pass preserves a chain tiling. -/
theorem merge_pass_spec_chain (θ : ℚ) (segs : List Segment) (k m : Int)
    (h : chainSpan k segs m) : chainSpan k (merge_pass_spec θ segs) m := by
  cases segs with
  | nil => exact h
  | cons s0 rest =>
    obtain ⟨h1, h2, h3, h4⟩ := h
    exact mergeSpecGo_chain θ rest [s0] k (s0.end_page + 1) m (by simp)
      (by simpa using (⟨h1, h2, h3, rfl⟩ : chainSpan k [s0] (s0.end_page + 1))) h4

/-- C1 (amended): the Boundary Detector's page ranges partition `[1..N]` for
every input whose succeeded records carry payloads; the Homogeneous Segment
Builder's segments (before and after the merge pass) partition `[1..N]` when
additionally every page record succeeded — a failed-analysis page is skipped
by the builder, so coverage can otherwise fail (see the counterexample). -/
theorem boundaries_and_segments_partition :
    (∀ pas : List PageAnalysis, pas ≠ [] →
        (∀ a ∈ pas, a.success = true → a.data.isSome) →
        ∃ b, get_document_boundaries pas = some b
          ∧ (b.map (fun p => intRange p.1 p.2)).flatten
              = intRange 1 (pas.length : Int)
          ∧ (∀ p ∈ b, p.1 ≤ p.2)
          ∧ b.Chain' (fun p q => p.2 + 1 = q.1))
      ∧ (∀ (pas : List PageAnalysis) (θ : ℚ), pas ≠ [] →
          (∀ a ∈ pas, a.success = true) →
          ((create_homogeneous_segments pas).map Segment.pages).flatten
              = intRange 1 (pas.length : Int)
            ∧ (∀ s ∈ create_homogeneous_segments pas,
                s.start_page ≤ s.end_page
                  ∧ s.pages = intRange s.start_page s.end_page)
            ∧ (create_homogeneous_segments pas).Chain'
                (fun s t => s.end_page + 1 = t.start_page)
            ∧ ∃ mrg, merge_single_page_segments (create_homogeneous_segments pas) θ
                  = some mrg
                ∧ (mrg.map Segment.pages).flatten = intRange 1 (pas.length : Int)
                ∧ (∀ s ∈ mrg, s.start_page ≤ s.end_page
                    ∧ s.pages = intRange s.start_page s.end_page)
                ∧ mrg.Chain' (fun s t => s.end_page + 1 = t.start_page)) := by
  have hN1 : ∀ pas : List PageAnalysis, (pas.length : Int) + 1 - 1
      = (pas.length : Int) := fun pas => by omega
  constructor
  · intro pas _ hdata
    rcases gdbAux_chain (pas.length : Int) pas 1 1 hdata (by omega) (le_refl 1)
      (Or.inr ⟨rfl, rfl⟩) with ⟨b, hb, hchain⟩
    refine ⟨b, hb, ?_, pairChain_mem _ _ _ hchain, pairChain_adjacent _ _ _ hchain⟩
    have hfl := (pairChain_flatten _ _ _ hchain).1
    rwa [hN1 pas] at hfl
  · intro pas θ hne hsucc
    have hchain := create_chain pas hne hsucc
    have hfl := (chainSpan_flatten _ _ _ hchain).1
    rw [hN1 pas] at hfl
    refine ⟨hfl, chainSpan_mem _ _ _ hchain, chainSpan_adjacent _ _ _ hchain, ?_⟩
    refine ⟨merge_pass_spec θ (create_homogeneous_segments pas),
      merge_code_eq_spec θ _, ?_, ?_, ?_⟩
    · have hm := (chainSpan_flatten _ _ _
        (merge_pass_spec_chain θ _ _ _ hchain)).1
      rwa [hN1 pas] at hm
    · exact chainSpan_mem _ _ _ (merge_pass_spec_chain θ _ _ _ hchain)
    · exact chainSpan_adjacent _ _ _ (merge_pass_spec_chain θ _ _ _ hchain)

/-- C1 counterexample: a two-page input whose second page failed analysis —
the Segment Builder skips the failed page, so its segments cover only `[1]`,
not `[1..2]`: the partition claim fails as stated for arbitrary inputs. -/
theorem segments_partition_cex :
    ([samplePageEmpty, ({} : PageAnalysis)].length = 2
        ∧ ((create_homogeneous_segments [samplePageEmpty, {}]).map
            Segment.pages).flatten = [(1 : Int)])
      ∧ ((create_homogeneous_segments [samplePageEmpty, {}]).map
          Segment.pages).flatten
        ≠ intRange 1 (([samplePageEmpty, ({} : PageAnalysis)].length : Int)) := by
  refine ⟨⟨by decide, by decide⟩, by decide⟩

/-- C1 witness: a two-page all-succeeded input; both the boundary ranges and
the homogeneous segments tile `[1..2]`. -/
theorem boundaries_and_segments_partition_witness :
    (([samplePageEmpty, samplePageEmpty] : List PageAnalysis) ≠ []
        ∧ (∀ a ∈ [samplePageEmpty, samplePageEmpty],
            a.success = true → a.data.isSome)
        ∧ (∀ a ∈ [samplePageEmpty, samplePageEmpty], a.success = true))
      ∧ (∃ b, get_document_boundaries [samplePageEmpty, samplePageEmpty] = some b
          ∧ (b.map (fun p => intRange p.1 p.2)).flatten
              = intRange 1 (([samplePageEmpty, samplePageEmpty].length : Int))
          ∧ (∀ p ∈ b, p.1 ≤ p.2)
          ∧ b.Chain' (fun p q => p.2 + 1 = q.1))
      ∧ (((create_homogeneous_segments [samplePageEmpty, samplePageEmpty]).map
            Segment.pages).flatten
          = intRange 1 (([samplePageEmpty, samplePageEmpty].length : Int))
        ∧ (∀ s ∈ create_homogeneous_segments [samplePageEmpty, samplePageEmpty],
            s.start_page ≤ s.end_page
              ∧ s.pages = intRange s.start_page s.end_page)
        ∧ (create_homogeneous_segments [samplePageEmpty, samplePageEmpty]).Chain'
            (fun s t => s.end_page + 1 = t.start_page)
        ∧ ∃ mrg, merge_single_page_segments
              (create_homogeneous_segments [samplePageEmpty, samplePageEmpty]) (3 / 5)
                = some mrg
            ∧ (mrg.map Segment.pages).flatten
                = intRange 1 (([samplePageEmpty, samplePageEmpty].length : Int))
            ∧ (∀ s ∈ mrg, s.start_page ≤ s.end_page
                ∧ s.pages = intRange s.start_page s.end_page)
            ∧ mrg.Chain' (fun s t => s.end_page + 1 = t.start_page)) :=
  ⟨⟨by decide, by decide, by decide⟩,
    boundaries_and_segments_partition.1 [samplePageEmpty, samplePageEmpty]
      (by decide) (by decide),
    boundaries_and_segments_partition.2 [samplePageEmpty, samplePageEmpty] (3 / 5)
      (by decide) (by decide)⟩

end FDP
